import Mathlib

/-!
Shallow embedding of the routing-and-build-orchestration core
(next-swc: next-core pages_structure, next-api project/pages/route/app,
napi subscription bridge, next-core image content source), together with
theorems settling the specification claims about it.
-/

set_option autoImplicit false

/-! ## Filesystem model

A directory listing as produced by `read_dir`: named entries in listing
order.  `read_dir` returns the full project path of each child, which is
the parent path joined with the entry name; the embedding reconstructs it
with `pathJoin`. -/

/-- A filesystem node: a file, a directory holding its listing (in OS
iteration order), or another entry kind (symlink etc., skipped by the
scanner's catch-all match arm). -/
inductive DirEntry where
  | file : DirEntry
  | dir (entries : List (String × DirEntry)) : DirEntry
  | other : DirEntry

/-- `FileSystemPath::join` for the plain segment names used by the scanner
(no `..` or `.` segments occur). The root path is the empty string. -/
def pathJoin (p n : String) : String := if p = "" then n else p ++ "/" ++ n

/-- Split a character list at its last occurrence of `sep`: `some` of the
part before and after that occurrence, `none` when `sep` does not occur. -/
def rsplitCharList (sep : Char) : List Char → Option (List Char × List Char)
  | [] => none
  | c :: rest =>
    match rsplitCharList sep rest with
    | some (pre, post) => some (c :: pre, post)
    | none => if c = sep then some ([], rest) else none

/-- Rust `str::rsplit_once('.')`: split at the last dot, `none` when the
name contains no dot. -/
def rsplitOnceDot (name : String) : Option (String × String) :=
  match rsplitCharList (Char.ofNat 46) name.data with
  | some (pre, post) => some (⟨pre⟩, ⟨post⟩)
  | none => none

/-- Whether the first character list is a prefix of the second. -/
def charListIsPfx : List Char → List Char → Bool
  | [], _ => true
  | _ :: _, [] => false
  | a :: pre, b :: rest => a = b && charListIsPfx pre rest

/-- Rust `str::starts_with` on strings. -/
def strStartsWith (s pre : String) : Bool := charListIsPfx pre.data s.data

/-- `page_basename` from pages_structure.rs: strip the extension when it is
one of the recognized page extensions, otherwise reject the file. -/
def page_basename (name : String) (page_extensions : List String) : Option String :=
  match rsplitOnceDot name with
  | some (basename, extension) =>
      if page_extensions.any (fun allowed => allowed = extension) then some basename else none
  | none => none

/-- The opaque external `Specificity` value. The core only constructs such
values (`exact`, `with_dynamic_segment`, `with_catch_all`), so the free
term model of those constructor calls is a faithful embedding. -/
inductive Specificity where
  | exact : Specificity
  | with_dynamic_segment (parent : Specificity) (position : Nat) : Specificity
  | with_catch_all (parent : Specificity) (position : Nat) : Specificity
deriving DecidableEq

/-- `entry_specificity` from pages_structure.rs. -/
def entry_specificity (specificity : Specificity) (name : String) (position : Nat) :
    Specificity :=
  if strStartsWith name "[[" || strStartsWith name "[..." then
    specificity.with_catch_all position
  else if strStartsWith name "[" then specificity.with_dynamic_segment position
  else specificity

/-- `PagesStructureItem` from pages_structure.rs: a leaf file mapped into a
logical route path. -/
structure PagesStructureItem where
  project_path : String
  next_router_path : String
  specificity : Specificity
deriving DecidableEq

/-- `PagesDirectoryStructure` from pages_structure.rs: a (sub)directory in
the pages directory with all analyzed routes and folders. -/
inductive PagesDirectoryStructure where
  | mk (project_path : String) (next_router_path : String)
      (items : List PagesStructureItem)
      (children : List PagesDirectoryStructure)

def PagesDirectoryStructure.project_path : PagesDirectoryStructure → String
  | .mk pp _ _ _ => pp

def PagesDirectoryStructure.next_router_path : PagesDirectoryStructure → String
  | .mk _ rp _ _ => rp

def PagesDirectoryStructure.items : PagesDirectoryStructure → List PagesStructureItem
  | .mk _ _ items _ => items

def PagesDirectoryStructure.children : PagesDirectoryStructure → List PagesDirectoryStructure
  | .mk _ _ _ children => children

/-- `PagesStructure` from pages_structure.rs (the next-core definition:
`api` is optional, `pages` is not). -/
structure PagesStructure where
  app : PagesStructureItem
  document : PagesStructureItem
  error : PagesStructureItem
  api : Option PagesDirectoryStructure
  pages : PagesDirectoryStructure

/-! ## Stable sort by string key

Rust's `sort_by_key` is a stable sort; the scanner sorts items by stripped
basename and children by directory name. Insertion sort inserting each
element before the first strictly-greater-or-equal key of a later element
reproduces stable-sort semantics. -/

/-- Insert `p` into a list sorted by `key`, before the first element whose
key is greater or equal (so elements that were originally later keep their
place after `p` on key ties, matching stable sort). -/
def insertSorted {α : Type} (key : α → String) (p : α) : List α → List α
  | [] => [p]
  | q :: rest =>
    if (key p).data ≤ (key q).data then p :: q :: rest else q :: insertSorted key p rest

/-- Stable sort by a string key, modelling Rust `slice::sort_by_key`. -/
def sortByKey {α : Type} (key : α → String) : List α → List α
  | [] => []
  | p :: rest => insertSorted key p (sortByKey key rest)

/-! ## The directory scanner (pages_structure.rs) -/

/-- The entry loop of `get_pages_structure_for_directory`: walk the listing
in order, collecting keyed items (recognized files) and keyed children
(subdirectories, scanned recursively with incremented position). -/
def collectDirEntries (page_extensions : List String) (project_path next_router_path : String)
    (specificity : Specificity) (position : Nat) :
    List (String × DirEntry) →
      List (String × PagesStructureItem) × List (String × PagesDirectoryStructure)
  | [] => ([], [])
  | (name, entry) :: rest =>
    let tail :=
      collectDirEntries page_extensions project_path next_router_path specificity position rest
    match entry with
    | .file =>
      match page_basename name page_extensions with
      | none => tail
      | some basename =>
        let spec := entry_specificity specificity name position
        let item_router_path :=
          if basename = "index" then next_router_path else pathJoin next_router_path basename
        ((basename, ⟨pathJoin project_path name, item_router_path, spec⟩) :: tail.1, tail.2)
    | .dir sub =>
      let spec := entry_specificity specificity name position
      let child_items :=
        collectDirEntries page_extensions (pathJoin project_path name)
          (pathJoin next_router_path name) spec (position + 1) sub
      (tail.1,
        (name,
          PagesDirectoryStructure.mk (pathJoin project_path name) (pathJoin next_router_path name)
            ((sortByKey Prod.fst child_items.1).map Prod.snd)
            ((sortByKey Prod.fst child_items.2).map Prod.snd)) :: tail.2)
    | .other => tail
  termination_by l => sizeOf l
  decreasing_by
    all_goals (simp_wf; try omega)

/-- `get_pages_structure_for_directory` from pages_structure.rs: scan a
directory listing, then sort items (by stripped basename) and children (by
name) for deterministic output, and build the structure node. -/
def get_pages_structure_for_directory (page_extensions : List String)
    (entries : List (String × DirEntry)) (project_path next_router_path : String)
    (specificity : Specificity) (position : Nat) : PagesDirectoryStructure :=
  let collected :=
    collectDirEntries page_extensions project_path next_router_path specificity position entries
  .mk project_path next_router_path
    ((sortByKey Prod.fst collected.1).map Prod.snd)
    ((sortByKey Prod.fst collected.2).map Prod.snd)

/-- Modelled from the spec: `embed_js::next_js_file_path` (not part of the
excerpt) returns a path of a built-in bundled asset inside the embedded
next.js asset filesystem; modelled as a path in a reserved namespace
disjoint from project paths. -/
def next_js_file_path (path : String) : String := "[next-embedded]/" ++ path

/-- Result of the entry loop of `get_pages_structure_for_root_directory`:
keyed items and children plus the special `_app`/`_document`/`_error`
singletons and the optional `api` subtree. `Option::insert` overwrites, so
the last occurrence in listing order wins for the special slots. -/
structure RootScan where
  items : List (String × PagesStructureItem)
  children : List (String × PagesDirectoryStructure)
  app_item : Option PagesStructureItem
  document_item : Option PagesStructureItem
  error_item : Option PagesStructureItem
  api_directory : Option PagesDirectoryStructure

/-- The entry loop of `get_pages_structure_for_root_directory`. The head of
the listing is processed first; a later occurrence of a special basename
overwrites an earlier one (modelled by preferring the tail's slot). -/
def collectRootEntries (page_extensions : List String) (project_path next_router_path : String) :
    List (String × DirEntry) → RootScan
  | [] => ⟨[], [], none, none, none, none⟩
  | (name, entry) :: rest =>
    let tail := collectRootEntries page_extensions project_path next_router_path rest
    let specificity := Specificity.exact
    match entry with
    | .file =>
      match page_basename name page_extensions with
      | none => tail
      | some "_app" =>
        { tail with
          app_item := some (tail.app_item.getD
            ⟨pathJoin project_path name, pathJoin next_router_path "_app", specificity⟩) }
      | some "_document" =>
        { tail with
          document_item := some (tail.document_item.getD
            ⟨pathJoin project_path name, pathJoin next_router_path "_document", specificity⟩) }
      | some "_error" =>
        { tail with
          error_item := some (tail.error_item.getD
            ⟨pathJoin project_path name, pathJoin next_router_path "_error", specificity⟩) }
      | some basename =>
        let spec := entry_specificity specificity name 0
        let item_router_path :=
          if basename = "index" then next_router_path else pathJoin next_router_path basename
        { tail with
          items := (basename, ⟨pathJoin project_path name, item_router_path, spec⟩) :: tail.items }
    | .dir sub =>
      if name = "api" then
        { tail with
          api_directory := some (tail.api_directory.getD
            (get_pages_structure_for_directory page_extensions sub (pathJoin project_path name)
              (pathJoin next_router_path name) specificity 1)) }
      else
        let spec := entry_specificity Specificity.exact name 0
        { tail with
          children := (name,
            get_pages_structure_for_directory page_extensions sub (pathJoin project_path name)
              (pathJoin next_router_path name) spec 1) :: tail.children }
    | .other => tail

/-- `get_pages_structure_for_root_directory` from pages_structure.rs:
handle the root pages directory, with `_app`/`_document`/`_error` captured
as singletons (falling back to the built-in bundled assets) and `api`
captured as a separate optional subtree. -/
def get_pages_structure_for_root_directory (page_extensions : List String)
    (entries : List (String × DirEntry)) (project_path next_router_path : String) :
    PagesStructure :=
  let specificity := Specificity.exact
  let scan := collectRootEntries page_extensions project_path next_router_path entries
  { app := scan.app_item.getD
      ⟨next_js_file_path "entry/pages/_app.tsx", pathJoin next_router_path "_app", specificity⟩
    document := scan.document_item.getD
      ⟨next_js_file_path "entry/pages/_document.tsx", pathJoin next_router_path "_document",
        specificity⟩
    error := scan.error_item.getD
      ⟨next_js_file_path "entry/pages/_error.tsx", pathJoin next_router_path "_error", specificity⟩
    api := scan.api_directory
    pages := .mk project_path next_router_path
      ((sortByKey Prod.fst scan.items).map Prod.snd)
      ((sortByKey Prod.fst scan.children).map Prod.snd) }

/-- First entry of a listing with the given name (filesystem listings have
unique names, so this is the entry of that name). -/
def findEntry (entries : List (String × DirEntry)) (name : String) : Option DirEntry :=
  (entries.find? (fun p => p.1 = name)).map Prod.snd

/-- The listing of an entry when it is a directory (`get_type` equals
`FileSystemEntryType::Directory`), `none` otherwise. -/
def dirEntries : Option DirEntry → Option (List (String × DirEntry))
  | some (.dir sub) => some sub
  | _ => none

/-- `find_pages_structure` from pages_structure.rs: use `pages` under the
project root when it is a directory, otherwise `src/pages` when that is a
directory, otherwise there is no pages structure. The project root is the
filesystem root (path `""`). -/
def find_pages_structure (project_root_entries : List (String × DirEntry))
    (next_router_root : String) (page_extensions : List String) : Option PagesStructure :=
  match dirEntries (findEntry project_root_entries "pages") with
  | some sub =>
      some (get_pages_structure_for_root_directory page_extensions sub "pages" next_router_root)
  | none =>
    match (dirEntries (findEntry project_root_entries "src")).bind
        (fun src => dirEntries (findEntry src "pages")) with
    | some sub =>
        some (get_pages_structure_for_root_directory page_extensions sub "src/pages"
          next_router_root)
    | none => none

/-! ## Route model (next-api/src/route.rs) -/

/-- The endpoint handles constructed by pages.rs: `PageEndpointVc::new`,
`PageDataEndpointVc::new` and `ApiEndpointVc::new`, each holding the
project path of the source file (the app endpoints are never constructed
by the excerpt's code). -/
inductive Endpoint where
  | page (path : String)
  | page_data (path : String)
  | api (path : String)
deriving DecidableEq

/-- `Route` from route.rs: tagged union over the five variants. -/
inductive Route where
  | page (html_endpoint data_endpoint : Endpoint)
  | page_api (endpoint : Endpoint)
  | app_page (html_endpoint rsc_endpoint : Endpoint)
  | app_route (endpoint : Endpoint)
  | conflict (routes : List Route)

/-- Whether a route is the `Conflict` variant. -/
def Route.isConflictVariant : Route → Bool
  | .conflict _ => true
  | _ => false

/-- `IndexMap::insert`: when the key is already present its value is
replaced in place (insertion position kept); otherwise the pair is
appended at the end. -/
def indexMapInsert {α : Type} (m : List (String × α)) (k : String) (v : α) :
    List (String × α) :=
  if m.any (fun p => p.1 = k) then m.map (fun p => if p.1 = k then (k, v) else p)
  else m ++ [(k, v)]

/-- `IndexMap::get` / association lookup by key (first occurrence). -/
def indexMapLookup {α : Type} (m : List (String × α)) (k : String) : Option α :=
  (m.find? (fun p => p.1 = k)).map Prod.snd

/-! ## Route assembly (next-api/src/pages.rs) -/

/-- The item loop inside `add_dir_to_routes`: insert
`(format!("/{}", next_router_path), make_route(project_path))` for each
item of a directory, in item order. -/
def routes_of_items (make_route : String → Route) (items : List PagesStructureItem)
    (routes : List (String × Route)) : List (String × Route) :=
  items.foldl
    (fun m item => indexMapInsert m ("/" ++ item.next_router_path) (make_route item.project_path))
    routes

/-- `add_dir_to_routes` from pages.rs. The Rust code drives an explicit
`Vec` used as a stack: `queue.pop()` removes the last element and children
are pushed in order. The embedding keeps the top of the stack at the head
of the list, so popping is taking the head and pushing the children in
order is prepending them reversed. -/
def add_dir_to_routes (make_route : String → Route) :
    List PagesDirectoryStructure → List (String × Route) → List (String × Route)
  | [], routes => routes
  | d :: queue_rest, routes =>
      add_dir_to_routes make_route (d.children.reverse ++ queue_rest)
        (routes_of_items make_route d.items routes)
  termination_by q _ => sizeOf q
  decreasing_by
    have hlist : ∀ l : List PagesDirectoryStructure, sizeOf l.reverse = sizeOf l := by
      intro l
      induction l with
      | nil => rfl
      | cons a t ih =>
          have happ : ∀ (l₁ l₂ : List PagesDirectoryStructure),
              sizeOf (l₁ ++ l₂) + 1 = sizeOf l₁ + sizeOf l₂ := by
            intro l₁ l₂
            induction l₁ with
            | nil => simp only [List.nil_append, List.nil.sizeOf_spec]; omega
            | cons b t₁ ih₁ => simp only [List.cons_append, List.cons.sizeOf_spec]; omega
          simp only [List.reverse_cons, List.cons.sizeOf_spec]
          have := happ t.reverse [a]
          simp only [List.cons.sizeOf_spec, List.nil.sizeOf_spec] at this
          omega
    have happ : ∀ (l₁ l₂ : List PagesDirectoryStructure),
        sizeOf (l₁ ++ l₂) + 1 = sizeOf l₁ + sizeOf l₂ := by
      intro l₁ l₂
      induction l₁ with
      | nil => simp only [List.nil_append, List.nil.sizeOf_spec]; omega
      | cons b t₁ ih₁ => simp only [List.cons_append, List.cons.sizeOf_spec]; omega
    simp_wf
    have h1 := happ d.children.reverse queue_rest
    rw [hlist d.children] at h1
    cases d with
    | mk pp rp its ch => simp only [PagesDirectoryStructure.children] at h1 ⊢; simp_wf; omega

/-- `get_pages_routes` from pages.rs: walk the `api` subtree (when
present) inserting `PageApi` routes, then the `pages` subtree inserting
`Page` routes. (next-api destructures `pages` as an `Option`; next-core's
`PagesStructure` in this excerpt has a non-optional `pages` field, so the
`Some` branch always applies.) -/
def get_pages_routes (page_structure : PagesStructure) : List (String × Route) :=
  let routes : List (String × Route) := []
  let routes :=
    match page_structure.api with
    | some api => add_dir_to_routes (fun path => .page_api (.api path)) [api] routes
    | none => routes
  add_dir_to_routes (fun path => .page (.page path) (.page_data path)) [page_structure.pages]
    routes

/-! ## Project façade (next-api/src/project.rs) -/

/-- `ProjectOptions` from project.rs. -/
structure ProjectOptions where
  root_path : String
  project_path : String
  watch : Bool

/-- `RoutesOptions` from project.rs. -/
structure RoutesOptions where
  page_extensions : List String

/-- A resolved `FileSystemPathVc`: the disk location the filesystem is
rooted at, and the path inside that filesystem (empty for the root). -/
structure FileSystemPath where
  fs_root : String
  path : String
deriving DecidableEq

/-- `Project` from project.rs. -/
structure Project where
  root_path : FileSystemPath
  project_path : FileSystemPath
deriving DecidableEq

/-- Outcome of a Rust call as observed by the caller: a normal value, an
error value on the error channel (`Err`), or a panic. -/
inductive RustOutcome (ε α : Type) where
  | ok (value : α)
  | err (error : ε)
  | panicked
deriving DecidableEq

/-- The `replace(MAIN_SEPARATOR, "/")` step of `ProjectVc::new`: on unix
`MAIN_SEPARATOR` is `/`, so each separator character is replaced by itself
(the identity there), written out characterwise. -/
def replaceMainSeparator (s : String) : String :=
  ⟨s.data.map (fun c => if c = Char.ofNat 47 then Char.ofNat 47 else c)⟩

/-- Rust `str::strip_prefix`: `some` with the remainder when the string
starts with the pattern, `none` otherwise. -/
def stringStripPfx (s pre : String) : Option String :=
  if strStartsWith s pre then some ⟨s.data.drop pre.data.length⟩ else none

/-- `ProjectVc::new` from project.rs. `options.project_path
.strip_prefix(&options.root_path).unwrap()` panics when `project_path`
does not start with `root_path` (there is no error-channel return on that
path), modelled as `RustOutcome.panicked`. `MAIN_SEPARATOR` is `/` on
unix, so the separator replacement is the identity here. -/
def ProjectVc.new (options : ProjectOptions) : RustOutcome String Project :=
  match stringStripPfx options.project_path options.root_path with
  | none => .panicked
  | some project_relative =>
    let project_relative := (stringStripPfx project_relative "/").getD project_relative
    let project_relative := replaceMainSeparator project_relative
    .ok
      { root_path := ⟨options.root_path, ""⟩
        project_path := ⟨options.root_path, project_relative⟩ }

/-- Modelled from the spec: `next_core::app_structure::find_app_dir` is
not part of the excerpt. It finds the app directory under the project
path, mirroring the pages lookup (`app`, falling back to `src/app`). -/
def find_app_dir (project_entries : List (String × DirEntry)) :
    Option (List (String × DirEntry)) :=
  match dirEntries (findEntry project_entries "app") with
  | some sub => some sub
  | none =>
      (dirEntries (findEntry project_entries "src")).bind
        (fun src => dirEntries (findEntry src "app"))

/-- Modelled from the spec: `app_structure::Entrypoint` is not part of the
excerpt; per the spec the app directory yields discovered entry points,
one per pathname, later converted to AppPage/AppRoute/Conflict routes. -/
inductive Entrypoint where
  | app_page (loader_tree_path : String)
  | app_route (path : String)
deriving DecidableEq

/-- Modelled from the spec: the recursive walk of
`app_structure::get_entrypoints` (not part of the excerpt), collecting
`page.<ext>` files as app-page entry points and `route.<ext>` files as
app-route entry points at the enclosing directory's pathname. -/
def get_entrypoints_walk (page_extensions : List String) :
    List (String × DirEntry) → String → String → List (String × Entrypoint)
  | [], _, _ => []
  | (name, entry) :: rest, dir_path, router_path =>
    let tail := get_entrypoints_walk page_extensions rest dir_path router_path
    match entry with
    | .file =>
      match page_basename name page_extensions with
      | some "page" => ("/" ++ router_path, Entrypoint.app_page (pathJoin dir_path name)) :: tail
      | some "route" => ("/" ++ router_path, Entrypoint.app_route (pathJoin dir_path name)) :: tail
      | _ => tail
    | .dir sub =>
        get_entrypoints_walk page_extensions sub (pathJoin dir_path name)
            (pathJoin router_path name) ++ tail
    | .other => tail
  termination_by l _ _ => sizeOf l
  decreasing_by
    all_goals (simp_wf; try omega)

/-- Modelled from the spec: `app_structure::get_entrypoints` returns the
pathname-keyed collection of app entry points (one per pathname). -/
def get_entrypoints (app_entries : List (String × DirEntry)) (page_extensions : List String) :
    List (String × Entrypoint) :=
  (get_entrypoints_walk page_extensions app_entries "app" "").foldl
    (fun m pr => indexMapInsert m pr.1 pr.2) []

/-- `app_entry_point_to_route` from next-api/src/app.rs: every app entry
point is mapped to `Route::Conflict { routes: vec![] }` (the function body
is a stub). -/
def app_entry_point_to_route (_entrypoint : Entrypoint) : Route := .conflict []

/-- `ProjectVc::routes` from project.rs: look for the app directory and
insert the converted app entry points into the result map; despite its doc
comment ("Scans the app/pages directories"), no pages scan happens. The
project is given by the listing of its project directory. -/
def ProjectVc.routes (project_entries : List (String × DirEntry)) (options : RoutesOptions) :
    List (String × Route) :=
  match find_app_dir project_entries with
  | some app_dir =>
      (get_entrypoints app_dir options.page_extensions).foldl
        (fun result pr => indexMapInsert result pr.1 (app_entry_point_to_route pr.2)) []
  | none => []

/-! ## Subscription bridge (napi/src/next_api.rs) -/

/-- The napi call status observed after a threadsafe-function call. -/
inductive NapiStatus where
  | ok
  | queue_full
  | closing
  | generic_failure
deriving DecidableEq

/-- Display form of a napi status, as interpolated by
`anyhow!("Error calling JS function: {}", status)`. -/
def napiStatusText : NapiStatus → String
  | .ok => "Ok"
  | .queue_full => "QueueFull"
  | .closing => "Closing"
  | .generic_failure => "GenericFailure"

/-- Dispatch mode of a threadsafe-function call. -/
inductive CallMode where
  | blocking
  | non_blocking
deriving DecidableEq

/-- One invocation of the external JS callback: the payload crossing the
boundary (a value, or an error string on the external error channel) and
the dispatch mode. -/
structure CallbackInvocation (T : Type) where
  payload : Except String T
  mode : CallMode

/-- What one iteration of the root-task loop of `subscribe` produces: the
single callback invocation it performs, and whether the task body returns
`Ok` (so the engine re-runs it on invalidation) or aborts with an error. -/
structure SubscribeIterationResult (T : Type) where
  invocation : CallbackInvocation T
  outcome : Except String Unit

/-- One iteration of the background task spawned by `subscribe` in
napi/src/next_api.rs: evaluate the handler, map an error through
`PrettyPrintError` into a napi error reason, call the threadsafe function
non-blockingly with the result, and abort the loop only when that call
itself does not return `Ok`. `pretty_print` stands for the external
`PrettyPrintError` rendering of the cause chain. -/
def subscribe_iteration {E T : Type} (pretty_print : E → String)
    (handler_result : Except E T) (call_status : NapiStatus) : SubscribeIterationResult T :=
  { invocation :=
      { payload := handler_result.mapError (fun e => pretty_print e)
        mode := .non_blocking }
    outcome :=
      if call_status = .ok then .ok ()
      else .error ("Error calling JS function: " ++ napiStatusText call_status) }

/-- `RootTask` from napi/src/next_api.rs (the engine handle it also holds
is left to the engine state). -/
structure RootTask where
  task_id : Nat

/-- Modelled from the spec: the incremental engine's root-task bookkeeping
(interface (3) in the spec: spawn a long-lived background task, request
its cancellation). The engine records which tasks are active and which
have had cancellation requested. -/
structure EngineState where
  active_tasks : List Nat
  cancellation_requested : List Nat
deriving DecidableEq

/-- `impl Drop for RootTask` from napi/src/next_api.rs: the body is empty
apart from a `TODO stop the root task` comment, so dropping the handle
performs no engine request at all. -/
def rootTask_drop (_task : RootTask) (engine : EngineState) : EngineState :=
  engine

/-- Whether the engine recorded a cancellation request for the task. -/
def cancellationRequested (engine : EngineState) (task : RootTask) : Bool :=
  engine.cancellation_requested.contains task.task_id

/-- Modelled from the spec: after an invalidation of its inputs, an active
root task whose cancellation was not requested re-runs and invokes its
external callback again. -/
def callback_fires_on_change (engine : EngineState) (task : RootTask) : Bool :=
  engine.active_tasks.contains task.task_id &&
    !engine.cancellation_requested.contains task.task_id

/-! ## Image content source (next-core/src/next_image/content_source.rs) -/

/-- `QueryValue`: the query string value forms; the image source only acts
on `QueryValue::String`. -/
inductive QueryValue where
  | str (value : String)
  | other
deriving DecidableEq

/-- `ContentSourceData` restricted to the field read by
`NextImageContentSource::get` (`data.query`; the remaining fields are
never touched by it). -/
structure ContentSourceData where
  query : Option (List (String × QueryValue))
deriving DecidableEq

/-- Modelled from the spec: `ContentSourceDataFilter`, the description of
which fields of a data class a source needs (all of them, or a named
subset). -/
inductive ContentSourceDataFilter where
  | all
  | subset (fields : List String)
deriving DecidableEq

/-- Modelled from the spec: `ContentSourceDataVary`, naming which of the
url/query/headers/cookies request data a source needs. -/
structure ContentSourceDataVary where
  url : Bool
  query : Option ContentSourceDataFilter
  headers : Option ContentSourceDataFilter
  cookies : Bool
deriving DecidableEq

/-- `NeededData`: the path to re-ask and the vary description (the source
reference itself carries no data and is omitted). -/
structure NeededData where
  path : String
  vary : ContentSourceDataVary
deriving DecidableEq

/-- `ProxyResult` as constructed by the image source's remote-url branch. -/
structure ProxyResult where
  status : Nat
  headers : List (String × String)
  body : String
deriving DecidableEq

/-- The content forms produced by `NextImageContentSource::get`: a rewrite
to the wrapped asset source decorated with the resize processor (carrying
the processor's path/width/quality), or an HTTP proxy answer. -/
inductive ContentSourceContent where
  | rewrite (url : String) (processor_path : String) (width : Nat) (quality : Nat)
  | http_proxy (result : ProxyResult)
deriving DecidableEq

/-- `ContentSourceResult`: not found, need more data, or a resolved
(exact) content. -/
inductive ContentSourceResult where
  | not_found
  | need_data (data : NeededData)
  | exact (content : ContentSourceContent)
deriving DecidableEq

/-- Whether a result is the `NeedMoreData` outcome. -/
def ContentSourceResult.isNeedData : ContentSourceResult → Bool
  | .need_data _ => true
  | _ => false

/-- Whether a result is a resolved content (neither `NotFound` nor
`NeedMoreData`). -/
def ContentSourceResult.isResolved : ContentSourceResult → Bool
  | .exact _ => true
  | _ => false

/-- A `BTreeSet<String>` collected from a list iterates in sorted order
without duplicates. -/
def btreeSetOfList (l : List String) : List String :=
  (sortByKey id l).dedup

/-- Modelled from the spec: `encode_pathname_to_url` from the wrapping
source module (not part of the excerpt) turns a pathname into a rooted
url. -/
def encode_pathname_to_url (pathname : String) : String := "/" ++ pathname

/-- Decimal value of a character list: `some` when it is a nonempty
all-digit sequence, `none` otherwise. -/
def decimalValue? (l : List Char) : Option Nat :=
  if l ≠ [] ∧ l.all (fun c => c.isDigit) then
    some (l.foldl (fun acc c => acc * 10 + (c.toNat - 48)) 0)
  else none

/-- Rust `str::parse` for unsigned integer types: decimal digits with an
optional leading `+`, rejecting values above the type's maximum. -/
def parseRustNat (s : String) (max_value : Nat) : Option Nat :=
  let digits := if strStartsWith s "+" then s.data.drop 1 else s.data
  match decimalValue? digits with
  | some n => if n ≤ max_value then some n else none
  | none => none

/-- `NextImageContentSource::get` from content_source.rs: with no query
data yet, answer `NeedMoreData` asking for the url and the query subset
`{url, w, q}`; with query data, read `url` (string required), `q`
(defaulting to 75, u8), `w` (u32 required), and resolve to a rewrite
through the resize processor for project-local urls or to a 302 proxy
answer for remote urls; any malformed field answers `NotFound`. -/
def NextImageContentSource.get (path : String) (data : ContentSourceData) :
    ContentSourceResult :=
  match data.query with
  | none =>
      .need_data
        { path := path
          vary :=
            { url := true
              query := some (.subset (btreeSetOfList ["url", "w", "q"]))
              headers := none
              cookies := false } }
  | some query =>
    match indexMapLookup query "url" with
    | some (.str url) =>
      let q? : Option Nat :=
        match indexMapLookup query "q" with
        | none => some 75
        | some (.str s) => parseRustNat s 255
        | some .other => none
      match q? with
      | none => .not_found
      | some q =>
        let w? : Option Nat :=
          match indexMapLookup query "w" with
          | some (.str s) => parseRustNat s 4294967295
          | _ => none
        match w? with
        | none => .not_found
        | some w =>
          match stringStripPfx url "/" with
          | some p => .exact (.rewrite (encode_pathname_to_url p) p w q)
          | none => .exact (.http_proxy { status := 302, headers := [("Location", url)], body := "" })
    | _ => .not_found

/-! ## Characterization helpers

Per-entry contribution functions used to state what the scanner loops
collect, and compositions of the source functions used by concrete
scenarios. -/

/-- The contribution of one listing entry to the keyed item list collected
by `collectDirEntries`. -/
def dirItemOf (page_extensions : List String) (project_path next_router_path : String)
    (specificity : Specificity) (position : Nat) :
    String × DirEntry → Option (String × PagesStructureItem)
  | (name, .file) =>
    match page_basename name page_extensions with
    | none => none
    | some basename =>
        some (basename,
          ⟨pathJoin project_path name,
            if basename = "index" then next_router_path else pathJoin next_router_path basename,
            entry_specificity specificity name position⟩)
  | _ => none

/-- The contribution of one listing entry to the keyed child list collected
by `collectDirEntries`. -/
def dirChildOf (page_extensions : List String) (project_path next_router_path : String)
    (specificity : Specificity) (position : Nat) :
    String × DirEntry → Option (String × PagesDirectoryStructure)
  | (name, .dir sub) =>
      some (name,
        get_pages_structure_for_directory page_extensions sub (pathJoin project_path name)
          (pathJoin next_router_path name) (entry_specificity specificity name position)
          (position + 1))
  | _ => none

/-- The contribution of one root listing entry to the keyed root item list
(files whose basename is recognized and not a special singleton). -/
def rootItemOf (page_extensions : List String) (project_path next_router_path : String) :
    String × DirEntry → Option (String × PagesStructureItem)
  | (name, .file) =>
    match page_basename name page_extensions with
    | none => none
    | some basename =>
        if basename = "_app" ∨ basename = "_document" ∨ basename = "_error" then none
        else
          some (basename,
            ⟨pathJoin project_path name,
              if basename = "index" then next_router_path
              else pathJoin next_router_path basename,
              entry_specificity Specificity.exact name 0⟩)
  | _ => none

/-- The contribution of one root listing entry to the keyed root child list
(subdirectories other than `api`). -/
def rootChildOf (page_extensions : List String) (project_path next_router_path : String) :
    String × DirEntry → Option (String × PagesDirectoryStructure)
  | (name, .dir sub) =>
      if name = "api" then none
      else
        some (name,
          get_pages_structure_for_directory page_extensions sub (pathJoin project_path name)
            (pathJoin next_router_path name) (entry_specificity Specificity.exact name 0) 1)
  | _ => none

/-- The `_app` singleton candidate contributed by one root listing entry. -/
def rootAppOf (page_extensions : List String) (project_path next_router_path : String) :
    String × DirEntry → Option PagesStructureItem
  | (name, .file) =>
    match page_basename name page_extensions with
    | some basename =>
        if basename = "_app" then
          some ⟨pathJoin project_path name, pathJoin next_router_path "_app", Specificity.exact⟩
        else none
    | none => none
  | _ => none

/-- The `_document` singleton candidate contributed by one root listing
entry. -/
def rootDocumentOf (page_extensions : List String) (project_path next_router_path : String) :
    String × DirEntry → Option PagesStructureItem
  | (name, .file) =>
    match page_basename name page_extensions with
    | some basename =>
        if basename = "_document" then
          some ⟨pathJoin project_path name, pathJoin next_router_path "_document", Specificity.exact⟩
        else none
    | none => none
  | _ => none

/-- The `_error` singleton candidate contributed by one root listing
entry. -/
def rootErrorOf (page_extensions : List String) (project_path next_router_path : String) :
    String × DirEntry → Option PagesStructureItem
  | (name, .file) =>
    match page_basename name page_extensions with
    | some basename =>
        if basename = "_error" then
          some ⟨pathJoin project_path name, pathJoin next_router_path "_error", Specificity.exact⟩
        else none
    | none => none
  | _ => none

/-- The `api` subtree candidate contributed by one root listing entry. -/
def rootApiOf (page_extensions : List String) (project_path next_router_path : String) :
    String × DirEntry → Option PagesDirectoryStructure
  | (name, .dir sub) =>
      if name = "api" then
        some (get_pages_structure_for_directory page_extensions sub (pathJoin project_path name)
          (pathJoin next_router_path name) Specificity.exact 1)
      else none
  | _ => none

/-- The value of the last pair with the given key in an insertion
sequence (the value an overwriting map insert leaves behind). -/
def lastValueOf {α : Type} (l : List (String × α)) (k : String) : Option α :=
  (l.reverse.find? (fun p => p.1 = k)).map Prod.snd

/-- The sequence of `(pathname, route)` insertions performed by
`add_dir_to_routes` on a queue, in processing order. -/
def dir_route_seq (make_route : String → Route) :
    List PagesDirectoryStructure → List (String × Route)
  | [] => []
  | d :: queue_rest =>
      d.items.map (fun it => ("/" ++ it.next_router_path, make_route it.project_path)) ++
        dir_route_seq make_route (d.children.reverse ++ queue_rest)
  termination_by q => sizeOf q
  decreasing_by
    have hlist : ∀ l : List PagesDirectoryStructure, sizeOf l.reverse = sizeOf l := by
      intro l
      induction l with
      | nil => rfl
      | cons a t ih =>
          have happ : ∀ (l₁ l₂ : List PagesDirectoryStructure),
              sizeOf (l₁ ++ l₂) + 1 = sizeOf l₁ + sizeOf l₂ := by
            intro l₁ l₂
            induction l₁ with
            | nil => simp only [List.nil_append, List.nil.sizeOf_spec]; omega
            | cons b t₁ ih₁ => simp only [List.cons_append, List.cons.sizeOf_spec]; omega
          simp only [List.reverse_cons, List.cons.sizeOf_spec]
          have := happ t.reverse [a]
          simp only [List.cons.sizeOf_spec, List.nil.sizeOf_spec] at this
          omega
    have happ : ∀ (l₁ l₂ : List PagesDirectoryStructure),
        sizeOf (l₁ ++ l₂) + 1 = sizeOf l₁ + sizeOf l₂ := by
      intro l₁ l₂
      induction l₁ with
      | nil => simp only [List.nil_append, List.nil.sizeOf_spec]; omega
      | cons b t₁ ih₁ => simp only [List.cons_append, List.cons.sizeOf_spec]; omega
    simp_wf
    have h1 := happ d.children.reverse queue_rest
    rw [hlist d.children] at h1
    cases d with
    | mk pp rp its ch => simp only [PagesDirectoryStructure.children] at h1 ⊢; simp_wf; omega

/-- The full insertion sequence of `get_pages_routes`: the `api` walk
followed by the `pages` walk. -/
def pages_route_seq (page_structure : PagesStructure) : List (String × Route) :=
  (match page_structure.api with
    | some api => dir_route_seq (fun path => .page_api (.api path)) [api]
    | none => []) ++
    dir_route_seq (fun path => .page (.page path) (.page_data path)) [page_structure.pages]

/-- Walk a segment path down a listing, returning the listing of the named
subdirectory when every segment resolves to a directory. -/
def lookupDirPath (entries : List (String × DirEntry)) :
    List String → Option (List (String × DirEntry))
  | [] => some entries
  | seg :: rest =>
    match dirEntries (findEntry entries seg) with
    | some sub => lookupDirPath sub rest
    | none => none

/-- The route collection of a project tree's pages structure: scan the
tree with `find_pages_structure` (router root at the filesystem root) and
assemble routes with `get_pages_routes`; no structure yields no routes. -/
def pages_routes_of_tree (tree : List (String × DirEntry)) (page_extensions : List String) :
    List (String × Route) :=
  match find_pages_structure tree "" page_extensions with
  | some s => get_pages_routes s
  | none => []

/-- The items of the `api` subtree of a project tree's pages structure. -/
def pages_api_items (tree : List (String × DirEntry)) (page_extensions : List String) :
    List PagesStructureItem :=
  match find_pages_structure tree "" page_extensions with
  | some s =>
    match s.api with
    | some d => d.items
    | none => []
  | none => []

/-! ## Theorems

Supporting lemmas first (stable sort, loop characterizations, map
lemmas), then one theorem per claim with its witness or counterexample. -/

theorem insertSorted_perm {α : Type} (key : α → String) (p : α) (l : List α) :
    (insertSorted key p l).Perm (p :: l) := by
  induction l with
  | nil => simp [insertSorted]
  | cons q rest ih =>
      by_cases h : (key p).data ≤ (key q).data
      · simp [insertSorted, h]
      · simp only [insertSorted, if_neg h]
        exact (ih.cons q).trans (List.Perm.swap p q rest)

theorem sortByKey_perm {α : Type} (key : α → String) (l : List α) :
    (sortByKey key l).Perm l := by
  induction l with
  | nil => exact List.Perm.refl []
  | cons p rest ih => exact (insertSorted_perm key p _).trans (ih.cons p)

theorem insertSorted_sorted {α : Type} (key : α → String) (p : α) (l : List α)
    (h : l.Pairwise (fun a b => (key a).data ≤ (key b).data)) :
    (insertSorted key p l).Pairwise (fun a b => (key a).data ≤ (key b).data) := by
  induction l with
  | nil => simp [insertSorted]
  | cons q rest ih =>
      rcases List.pairwise_cons.mp h with ⟨hq, hrest⟩
      by_cases hpq : (key p).data ≤ (key q).data
      · simp only [insertSorted, if_pos hpq]
        refine List.pairwise_cons.mpr ⟨?_, h⟩
        intro b hb
        rcases List.mem_cons.mp hb with rfl | hb
        · exact hpq
        · exact hpq.trans (hq b hb)
      · simp only [insertSorted, if_neg hpq]
        refine List.pairwise_cons.mpr ⟨?_, ih hrest⟩
        intro b hb
        rcases List.mem_cons.mp ((insertSorted_perm key p rest).mem_iff.mp hb) with rfl | hb'
        · exact le_of_not_le hpq
        · exact hq b hb'

theorem sortByKey_sorted {α : Type} (key : α → String) (l : List α) :
    (sortByKey key l).Pairwise (fun a b => (key a).data ≤ (key b).data) := by
  induction l with
  | nil => simp [sortByKey]
  | cons p rest ih => exact insertSorted_sorted key p _ ih

theorem sortByKey_eq_of_perm {α : Type} (key : α → String) (l₁ l₂ : List α)
    (hp : l₁.Perm l₂) (hnd : (l₁.map key).Nodup) :
    sortByKey key l₁ = sortByKey key l₂ := by
  have hperm : (sortByKey key l₁).Perm (sortByKey key l₂) :=
    (sortByKey_perm key l₁).trans (hp.trans (sortByKey_perm key l₂).symm)
  have hnd₁ : ((sortByKey key l₁).map key).Nodup :=
    (((sortByKey_perm key l₁).map key).symm).nodup hnd
  have hnd₂ : ((sortByKey key l₂).map key).Nodup := (hperm.map key).nodup hnd₁
  have hstrict : ∀ m : List α, (m.map key).Nodup →
      m.Pairwise (fun a b => (key a).data ≤ (key b).data) →
      m.Pairwise (fun a b => (key a).data < (key b).data) := by
    intro m hmnd hms
    have hne : m.Pairwise (fun a b => key a ≠ key b) := (List.pairwise_map).mp hmnd
    refine (hms.and hne).imp (fun h => lt_of_le_of_ne h.1 ?_)
    intro hdata
    exact h.2 (String.ext hdata)
  haveI : IsAntisymm α (fun a b => (key a).data < (key b).data) :=
    ⟨fun a b h1 h2 => absurd (h1.trans h2) (lt_irrefl _)⟩
  exact List.eq_of_perm_of_sorted hperm
    (hstrict _ hnd₁ (sortByKey_sorted key l₁)) (hstrict _ hnd₂ (sortByKey_sorted key l₂))

theorem collectDirEntries_eq (page_extensions : List String)
    (project_path next_router_path : String) (specificity : Specificity) (position : Nat)
    (l : List (String × DirEntry)) :
    collectDirEntries page_extensions project_path next_router_path specificity position l =
      (l.filterMap (dirItemOf page_extensions project_path next_router_path specificity position),
        l.filterMap (dirChildOf page_extensions project_path next_router_path specificity position)) := by
  induction l with
  | nil => simp [collectDirEntries]
  | cons x rest ih =>
      obtain ⟨name, entry⟩ := x
      cases entry with
      | file =>
          cases hb : page_basename name page_extensions with
          | none =>
              simp [collectDirEntries, dirItemOf, dirChildOf, hb, ih, List.filterMap_cons]
          | some basename =>
              simp [collectDirEntries, dirItemOf, dirChildOf, hb, ih, List.filterMap_cons]
      | dir sub =>
          simp [collectDirEntries, dirItemOf, dirChildOf, ih, List.filterMap_cons,
            get_pages_structure_for_directory]
      | other => simp [collectDirEntries, dirItemOf, dirChildOf, ih, List.filterMap_cons]

theorem getLast?_cons_eq {α : Type} (c : α) (l : List α) :
    (c :: l).getLast? = some (l.getLast?.getD c) := by
  induction l generalizing c with
  | nil => rfl
  | cons d t ih => rw [List.getLast?_cons_cons, ih d, Option.getD_some]

theorem collectRootEntries_eq (page_extensions : List String)
    (project_path next_router_path : String) (l : List (String × DirEntry)) :
    collectRootEntries page_extensions project_path next_router_path l =
      ⟨l.filterMap (rootItemOf page_extensions project_path next_router_path),
        l.filterMap (rootChildOf page_extensions project_path next_router_path),
        (l.filterMap (rootAppOf page_extensions project_path next_router_path)).getLast?,
        (l.filterMap (rootDocumentOf page_extensions project_path next_router_path)).getLast?,
        (l.filterMap (rootErrorOf page_extensions project_path next_router_path)).getLast?,
        (l.filterMap (rootApiOf page_extensions project_path next_router_path)).getLast?⟩ := by
  induction l with
  | nil => rfl
  | cons x rest ih =>
      obtain ⟨name, entry⟩ := x
      cases entry with
      | file =>
          cases hb : page_basename name page_extensions with
          | none =>
              simp [collectRootEntries, rootItemOf, rootChildOf, rootAppOf, rootDocumentOf,
                rootErrorOf, rootApiOf, hb, ih, List.filterMap_cons]
          | some basename =>
              by_cases h1 : basename = "_app"
              · subst h1
                simp [collectRootEntries, rootItemOf, rootChildOf, rootAppOf, rootDocumentOf,
                  rootErrorOf, rootApiOf, hb, ih, List.filterMap_cons, getLast?_cons_eq]
              · by_cases h2 : basename = "_document"
                · subst h2
                  simp [collectRootEntries, rootItemOf, rootChildOf, rootAppOf, rootDocumentOf,
                    rootErrorOf, rootApiOf, hb, ih, List.filterMap_cons, getLast?_cons_eq]
                · by_cases h3 : basename = "_error"
                  · subst h3
                    simp [collectRootEntries, rootItemOf, rootChildOf, rootAppOf, rootDocumentOf,
                      rootErrorOf, rootApiOf, hb, ih, List.filterMap_cons, getLast?_cons_eq]
                  · simp [collectRootEntries, rootItemOf, rootChildOf, rootAppOf, rootDocumentOf,
                      rootErrorOf, rootApiOf, hb, h1, h2, h3, ih, List.filterMap_cons]
      | dir sub =>
          by_cases h4 : name = "api"
          · subst h4
            simp [collectRootEntries, rootItemOf, rootChildOf, rootAppOf, rootDocumentOf,
              rootErrorOf, rootApiOf, ih, List.filterMap_cons, getLast?_cons_eq]
          · simp [collectRootEntries, rootItemOf, rootChildOf, rootAppOf, rootDocumentOf,
              rootErrorOf, rootApiOf, h4, ih, List.filterMap_cons]
      | other =>
          simp [collectRootEntries, rootItemOf, rootChildOf, rootAppOf, rootDocumentOf,
            rootErrorOf, rootApiOf, ih, List.filterMap_cons]

theorem perm_eq_of_length_le_one {α : Type} :
    ∀ (l₁ l₂ : List α), l₁.Perm l₂ → l₁.length ≤ 1 → l₁ = l₂ := by
  intro l₁ l₂ h hl
  match l₁, hl with
  | [], _ => exact h.nil_eq
  | [a], _ =>
    have hlen := h.length_eq
    match l₂, hlen with
    | [b], _ =>
      have hm : a ∈ [b] := h.mem_iff.mp (by simp)
      simp at hm
      simp [hm]

/-- Claim C5 (amended): the Structure Scanner sorts items and children by
key before attaching them, so its output is identical for directory
listings that are permutations of each other, provided the sort keys are
collision-free: in each directory the recognized files have pairwise
distinct stripped basenames and the subdirectories pairwise distinct
names, and at the root there is at most one file for each of the
`_app`/`_document`/`_error` singletons and at most one `api` directory.
(When two recognized files share a stripped basename, such as `a.js` and
`a.ts`, the stable sort ties on the key and the output depends on the
OS listing order — see the counterexample.) -/
theorem c5_scanner_order_determinism :
    (∀ (page_extensions : List String) (e₁ e₂ : List (String × DirEntry))
        (project_path next_router_path : String) (specificity : Specificity) (position : Nat),
      e₁.Perm e₂ →
      ((e₁.filterMap
          (dirItemOf page_extensions project_path next_router_path specificity position)).map
        Prod.fst).Nodup →
      ((e₁.filterMap
          (dirChildOf page_extensions project_path next_router_path specificity position)).map
        Prod.fst).Nodup →
      get_pages_structure_for_directory page_extensions e₁ project_path next_router_path
          specificity position =
        get_pages_structure_for_directory page_extensions e₂ project_path next_router_path
          specificity position) ∧
    (∀ (page_extensions : List String) (e₁ e₂ : List (String × DirEntry))
        (project_path next_router_path : String),
      e₁.Perm e₂ →
      ((e₁.filterMap (rootItemOf page_extensions project_path next_router_path)).map
        Prod.fst).Nodup →
      ((e₁.filterMap (rootChildOf page_extensions project_path next_router_path)).map
        Prod.fst).Nodup →
      (e₁.filterMap (rootAppOf page_extensions project_path next_router_path)).length ≤ 1 →
      (e₁.filterMap (rootDocumentOf page_extensions project_path next_router_path)).length ≤ 1 →
      (e₁.filterMap (rootErrorOf page_extensions project_path next_router_path)).length ≤ 1 →
      (e₁.filterMap (rootApiOf page_extensions project_path next_router_path)).length ≤ 1 →
      get_pages_structure_for_root_directory page_extensions e₁ project_path next_router_path =
        get_pages_structure_for_root_directory page_extensions e₂ project_path
          next_router_path) := by
  constructor
  · intro exts e₁ e₂ pp rp spec pos hperm hitems hchildren
    have h1 := sortByKey_eq_of_perm Prod.fst _ _ (hperm.filterMap (dirItemOf exts pp rp spec pos))
      hitems
    have h2 := sortByKey_eq_of_perm Prod.fst _ _
      (hperm.filterMap (dirChildOf exts pp rp spec pos)) hchildren
    simp [get_pages_structure_for_directory, collectDirEntries_eq, h1, h2]
  · intro exts e₁ e₂ pp rp hperm hitems hchildren happ hdoc herr hapi
    have h1 := sortByKey_eq_of_perm Prod.fst _ _ (hperm.filterMap (rootItemOf exts pp rp)) hitems
    have h2 := sortByKey_eq_of_perm Prod.fst _ _ (hperm.filterMap (rootChildOf exts pp rp))
      hchildren
    have h3 := perm_eq_of_length_le_one _ _ (hperm.filterMap (rootAppOf exts pp rp)) happ
    have h4 := perm_eq_of_length_le_one _ _ (hperm.filterMap (rootDocumentOf exts pp rp)) hdoc
    have h5 := perm_eq_of_length_le_one _ _ (hperm.filterMap (rootErrorOf exts pp rp)) herr
    have h6 := perm_eq_of_length_le_one _ _ (hperm.filterMap (rootApiOf exts pp rp)) hapi
    simp [get_pages_structure_for_root_directory, collectRootEntries_eq, h1, h2, h3, h4, h5, h6]

theorem c5_witness :
    get_pages_structure_for_directory ["ts"] [("b.ts", DirEntry.file), ("a.ts", DirEntry.file)]
        "pages" "" .exact 0 =
      get_pages_structure_for_directory ["ts"] [("a.ts", DirEntry.file), ("b.ts", DirEntry.file)]
        "pages" "" .exact 0 :=
  c5_scanner_order_determinism.1 ["ts"] _ _ "pages" "" .exact 0
    (List.Perm.swap ("a.ts", DirEntry.file) ("b.ts", DirEntry.file) []) (by decide) (by decide)

theorem c5_counterexample :
    ([("a.ts", DirEntry.file), ("a.js", DirEntry.file)]).Perm
        [("a.js", DirEntry.file), ("a.ts", DirEntry.file)] ∧
    (get_pages_structure_for_directory ["js", "ts"]
          [("a.js", DirEntry.file), ("a.ts", DirEntry.file)] "pages" "" .exact 0).items.map
        PagesStructureItem.project_path ≠
      (get_pages_structure_for_directory ["js", "ts"]
          [("a.ts", DirEntry.file), ("a.js", DirEntry.file)] "pages" "" .exact 0).items.map
        PagesStructureItem.project_path := by
  constructor
  · exact List.Perm.swap _ _ _
  · simp only [get_pages_structure_for_directory, collectDirEntries_eq]
    decide

theorem get_pages_structure_for_directory_eq (page_extensions : List String)
    (entries : List (String × DirEntry)) (project_path next_router_path : String)
    (specificity : Specificity) (position : Nat) :
    get_pages_structure_for_directory page_extensions entries project_path next_router_path
        specificity position =
      .mk project_path next_router_path
        ((sortByKey Prod.fst (entries.filterMap
          (dirItemOf page_extensions project_path next_router_path specificity position))).map
            Prod.snd)
        ((sortByKey Prod.fst (entries.filterMap
          (dirChildOf page_extensions project_path next_router_path specificity position))).map
            Prod.snd) := by
  simp [get_pages_structure_for_directory, collectDirEntries_eq]

theorem get_pages_structure_for_root_directory_eq (page_extensions : List String)
    (entries : List (String × DirEntry)) (project_path next_router_path : String) :
    get_pages_structure_for_root_directory page_extensions entries project_path next_router_path =
      { app := ((entries.filterMap
            (rootAppOf page_extensions project_path next_router_path)).getLast?).getD
          ⟨next_js_file_path "entry/pages/_app.tsx", pathJoin next_router_path "_app", .exact⟩
        document := ((entries.filterMap
            (rootDocumentOf page_extensions project_path next_router_path)).getLast?).getD
          ⟨next_js_file_path "entry/pages/_document.tsx", pathJoin next_router_path "_document",
            .exact⟩
        error := ((entries.filterMap
            (rootErrorOf page_extensions project_path next_router_path)).getLast?).getD
          ⟨next_js_file_path "entry/pages/_error.tsx", pathJoin next_router_path "_error", .exact⟩
        api := (entries.filterMap
          (rootApiOf page_extensions project_path next_router_path)).getLast?
        pages := .mk project_path next_router_path
          ((sortByKey Prod.fst (entries.filterMap
            (rootItemOf page_extensions project_path next_router_path))).map Prod.snd)
          ((sortByKey Prod.fst (entries.filterMap
            (rootChildOf page_extensions project_path next_router_path))).map Prod.snd) } := by
  simp [get_pages_structure_for_root_directory, collectRootEntries_eq]

theorem pathJoin_inj (p a b : String) (h : pathJoin p a = pathJoin p b) : a = b := by
  unfold pathJoin at h
  by_cases hp : p = ""
  · simpa [hp] using h
  · simp only [if_neg hp] at h
    have hdata := congrArg String.data h
    simp only [String.data_append, List.append_assoc] at hdata
    exact String.ext (List.append_cancel_left (List.append_cancel_left hdata))

theorem rootItemOf_inv {page_extensions : List String} {project_path next_router_path : String}
    {x : String × DirEntry} {pr : String × PagesStructureItem}
    (h : rootItemOf page_extensions project_path next_router_path x = some pr) :
    ∃ name, x = (name, DirEntry.file) ∧ ∃ b, page_basename name page_extensions = some b ∧
      b ≠ "_app" ∧ b ≠ "_document" ∧ b ≠ "_error" ∧
      pr = (b, ⟨pathJoin project_path name,
        if b = "index" then next_router_path else pathJoin next_router_path b,
        entry_specificity Specificity.exact name 0⟩) := by
  obtain ⟨name, entry⟩ := x
  cases entry with
  | file =>
      cases hb : page_basename name page_extensions with
      | none => simp only [rootItemOf, hb] at h; exact absurd h (by simp)
      | some b =>
          simp only [rootItemOf, hb] at h
          by_cases hs : b = "_app" ∨ b = "_document" ∨ b = "_error"
          · rw [if_pos hs] at h; exact absurd h (by simp)
          · rw [if_neg hs] at h
            push_neg at hs
            exact ⟨name, rfl, b, hb, hs.1, hs.2.1, hs.2.2, (Option.some.injEq _ _ ▸ h).symm⟩
  | dir sub => exact absurd h (by simp [rootItemOf])
  | other => exact absurd h (by simp [rootItemOf])

theorem rootAppOf_inv {page_extensions : List String} {project_path next_router_path : String}
    {x : String × DirEntry} {it : PagesStructureItem}
    (h : rootAppOf page_extensions project_path next_router_path x = some it) :
    ∃ name, x = (name, DirEntry.file) ∧ page_basename name page_extensions = some "_app" ∧
      it = ⟨pathJoin project_path name, pathJoin next_router_path "_app", Specificity.exact⟩ := by
  obtain ⟨name, entry⟩ := x
  cases entry with
  | file =>
      cases hb : page_basename name page_extensions with
      | none => simp only [rootAppOf, hb] at h; exact absurd h (by simp)
      | some b =>
          simp only [rootAppOf, hb] at h
          by_cases hs : b = "_app"
          · rw [if_pos hs] at h
            subst hs
            exact ⟨name, rfl, hb, (Option.some.injEq _ _ ▸ h).symm⟩
          · rw [if_neg hs] at h; exact absurd h (by simp)
  | dir sub => exact absurd h (by simp [rootAppOf])
  | other => exact absurd h (by simp [rootAppOf])

/-- Claim C6 (amended): at the root pages directory, files with basename
`_app`/`_document`/`_error` (under a recognized extension) never appear
among the enumerated root items; the `_app` file becomes the singleton app
shell, and when no such file exists the shell falls back to the built-in
bundled asset `entry/pages/_app.tsx` (likewise `_document` and `_error`
fall back to their bundled assets). In subdirectories and in the `api`
subtree these basenames are not special and do appear as ordinary items —
see the counterexample. -/
theorem c6_root_singletons (page_extensions : List String)
    (entries : List (String × DirEntry)) (project_path next_router_path : String) :
    (∀ name, (name, DirEntry.file) ∈ entries →
      (page_basename name page_extensions = some "_app" ∨
        page_basename name page_extensions = some "_document" ∨
        page_basename name page_extensions = some "_error") →
      ∀ it ∈ (get_pages_structure_for_root_directory page_extensions entries project_path
          next_router_path).pages.items,
        it.project_path ≠ pathJoin project_path name) ∧
    ((∀ name, (name, DirEntry.file) ∈ entries →
        page_basename name page_extensions ≠ some "_app") →
      (get_pages_structure_for_root_directory page_extensions entries project_path
          next_router_path).app =
        ⟨next_js_file_path "entry/pages/_app.tsx", pathJoin next_router_path "_app", .exact⟩) ∧
    ((∀ name, (name, DirEntry.file) ∈ entries →
        page_basename name page_extensions ≠ some "_document") →
      (get_pages_structure_for_root_directory page_extensions entries project_path
          next_router_path).document =
        ⟨next_js_file_path "entry/pages/_document.tsx", pathJoin next_router_path "_document",
          .exact⟩) ∧
    ((∀ name, (name, DirEntry.file) ∈ entries →
        page_basename name page_extensions ≠ some "_error") →
      (get_pages_structure_for_root_directory page_extensions entries project_path
          next_router_path).error =
        ⟨next_js_file_path "entry/pages/_error.tsx", pathJoin next_router_path "_error",
          .exact⟩) ∧
    ((∃ name, (name, DirEntry.file) ∈ entries ∧
        page_basename name page_extensions = some "_app") →
      ∃ name, (name, DirEntry.file) ∈ entries ∧
        page_basename name page_extensions = some "_app" ∧
        (get_pages_structure_for_root_directory page_extensions entries project_path
            next_router_path).app =
          ⟨pathJoin project_path name, pathJoin next_router_path "_app", .exact⟩) := by
  refine ⟨?_, ?_, ?_, ?_, ?_⟩
  · intro name hmem hspec it hit hcontra
    rw [get_pages_structure_for_root_directory_eq] at hit
    simp only [PagesStructure.pages, PagesDirectoryStructure.items, List.mem_map] at hit
    obtain ⟨pr, hpr, hsnd⟩ := hit
    have hprL := (sortByKey_perm (Prod.fst
      (β := PagesStructureItem)) _).mem_iff.mp hpr
    obtain ⟨x, hx, hxeq⟩ := List.mem_filterMap.mp hprL
    obtain ⟨name', hxname, b, hb, h1, h2, h3, hpr'⟩ := rootItemOf_inv hxeq
    have hpp : it.project_path = pathJoin project_path name' := by
      rw [← hsnd, hpr']
    rw [hpp] at hcontra
    have hname : name' = name := pathJoin_inj _ _ _ hcontra
    subst hname
    rcases hspec with hs | hs | hs
    · rw [hb] at hs
      exact h1 (Option.some.injEq _ _ ▸ hs)
    · rw [hb] at hs
      exact h2 (Option.some.injEq _ _ ▸ hs)
    · rw [hb] at hs
      exact h3 (Option.some.injEq _ _ ▸ hs)
  · intro hnone
    have hnil : entries.filterMap
        (rootAppOf page_extensions project_path next_router_path) = [] := by
      refine List.filterMap_eq_nil_iff.mpr ?_
      intro x hx
      obtain ⟨name, entry⟩ := x
      cases entry with
      | file =>
          cases hb : page_basename name page_extensions with
          | none => simp [rootAppOf, hb]
          | some b =>
              have : b ≠ "_app" := by
                intro hb'
                subst hb'
                exact hnone name hx hb
              simp [rootAppOf, hb, this]
      | dir sub => simp [rootAppOf]
      | other => simp [rootAppOf]
    rw [get_pages_structure_for_root_directory_eq]
    simp [hnil]
  · intro hnone
    have hnil : entries.filterMap
        (rootDocumentOf page_extensions project_path next_router_path) = [] := by
      refine List.filterMap_eq_nil_iff.mpr ?_
      intro x hx
      obtain ⟨name, entry⟩ := x
      cases entry with
      | file =>
          cases hb : page_basename name page_extensions with
          | none => simp [rootDocumentOf, hb]
          | some b =>
              have : b ≠ "_document" := by
                intro hb'
                subst hb'
                exact hnone name hx hb
              simp [rootDocumentOf, hb, this]
      | dir sub => simp [rootDocumentOf]
      | other => simp [rootDocumentOf]
    rw [get_pages_structure_for_root_directory_eq]
    simp [hnil]
  · intro hnone
    have hnil : entries.filterMap
        (rootErrorOf page_extensions project_path next_router_path) = [] := by
      refine List.filterMap_eq_nil_iff.mpr ?_
      intro x hx
      obtain ⟨name, entry⟩ := x
      cases entry with
      | file =>
          cases hb : page_basename name page_extensions with
          | none => simp [rootErrorOf, hb]
          | some b =>
              have : b ≠ "_error" := by
                intro hb'
                subst hb'
                exact hnone name hx hb
              simp [rootErrorOf, hb, this]
      | dir sub => simp [rootErrorOf]
      | other => simp [rootErrorOf]
    rw [get_pages_structure_for_root_directory_eq]
    simp [hnil]
  · intro hex
    obtain ⟨name, hmem, hb⟩ := hex
    have hcand : rootAppOf page_extensions project_path next_router_path (name, .file) =
        some ⟨pathJoin project_path name, pathJoin next_router_path "_app",
          Specificity.exact⟩ := by
      simp [rootAppOf, hb]
    have hmemf : (⟨pathJoin project_path name, pathJoin next_router_path "_app",
        Specificity.exact⟩ : PagesStructureItem) ∈
        entries.filterMap (rootAppOf page_extensions project_path next_router_path) :=
      List.mem_filterMap.mpr ⟨(name, .file), hmem, hcand⟩
    have hne := List.ne_nil_of_mem hmemf
    have hlast := List.getLast?_eq_getLast_of_ne_nil hne
    have hmemlast := List.getLast_mem hne
    obtain ⟨x, hx, hxeq⟩ := List.mem_filterMap.mp hmemlast
    obtain ⟨name', hxname, hb', hiteq⟩ := rootAppOf_inv hxeq
    subst hxname
    refine ⟨name', hx, hb', ?_⟩
    rw [get_pages_structure_for_root_directory_eq]
    simp only [PagesStructure.app]
    rw [hlast]
    simp [hiteq]

theorem c6_witness :
    (get_pages_structure_for_root_directory ["ts"] [("index.ts", DirEntry.file)] "pages" "").app =
      ⟨next_js_file_path "entry/pages/_app.tsx", pathJoin "" "_app", .exact⟩ :=
  (c6_root_singletons ["ts"] [("index.ts", DirEntry.file)] "pages" "").2.1
    (by
      intro name hmem
      simp only [List.mem_singleton, Prod.mk.injEq] at hmem
      rw [hmem.1]
      decide)

theorem c6_counterexample :
    (pages_api_items
        [("pages", DirEntry.dir [("api", DirEntry.dir [("_app.ts", DirEntry.file)])])]
        ["ts"]).map PagesStructureItem.next_router_path = ["api/_app"] ∧
    (pages_api_items
        [("pages", DirEntry.dir [("api", DirEntry.dir [("_app.ts", DirEntry.file)])])]
        ["ts"]).map PagesStructureItem.project_path = ["pages/api/_app.ts"] := by
  constructor <;>
    simp +decide [pages_api_items, find_pages_structure, findEntry, dirEntries,
      get_pages_structure_for_root_directory, collectRootEntries_eq,
      get_pages_structure_for_directory_eq, rootApiOf, rootItemOf, rootChildOf, rootAppOf,
      rootDocumentOf, rootErrorOf, dirItemOf, dirChildOf, page_basename, rsplitCharList,
      pathJoin, sortByKey, insertSorted, List.filterMap_cons]

theorem find?_replaceKey {α : Type} (m : List (String × α)) (k k' : String) (v : α)
    (hk : k' ≠ k) :
    (m.map (fun p => if p.1 = k then (k, v) else p)).find? (fun p => p.1 = k') =
      m.find? (fun p => p.1 = k') := by
  induction m with
  | nil => rfl
  | cons p rest ih =>
      by_cases hp : p.1 = k
      · have h1 : ¬((k, v).1 = k') := fun h => hk h.symm
        have h2 : ¬(p.1 = k') := fun h => hk (hp ▸ h).symm
        simp [hp, List.find?_cons, h1, h2, ih]
      · by_cases hp' : p.1 = k'
        · rw [List.map_cons, if_neg hp, List.find?_cons, List.find?_cons]
          simp [hp']
        · rw [List.map_cons, if_neg hp, List.find?_cons, List.find?_cons]
          simp [hp', ih]

theorem find?_replaceKey_hit {α : Type} (m : List (String × α)) (k : String) (v : α)
    (hany : m.any (fun p => p.1 = k) = true) :
    (m.map (fun p => if p.1 = k then (k, v) else p)).find? (fun p => p.1 = k) = some (k, v) := by
  induction m with
  | nil => simp at hany
  | cons p rest ih =>
      by_cases hp : p.1 = k
      · simp [hp, List.find?_cons]
      · have hrest : rest.any (fun p => p.1 = k) = true := by
          simpa [List.any_cons, hp] using hany
        simp [hp, List.find?_cons, ih hrest]

theorem indexMapLookup_insert {α : Type} (m : List (String × α)) (k k' : String) (v : α) :
    indexMapLookup (indexMapInsert m k v) k' =
      if k' = k then some v else indexMapLookup m k' := by
  unfold indexMapInsert indexMapLookup
  by_cases hany : m.any (fun p => p.1 = k) = true
  · rw [if_pos hany]
    by_cases hk : k' = k
    · subst hk
      rw [if_pos rfl, find?_replaceKey_hit m k' v hany]
      rfl
    · rw [if_neg hk, find?_replaceKey m k k' v hk]
  · rw [if_neg hany]
    by_cases hk : k' = k
    · subst hk
      rw [if_pos rfl, List.find?_append]
      have hnone : m.find? (fun p => p.1 = k') = none := by
        rw [List.find?_eq_none]
        intro p hp
        simp only [decide_eq_true_eq]
        intro hpk
        exact hany (List.any_eq_true.mpr ⟨p, hp, by simp [hpk]⟩)
      simp [hnone]
    · rw [if_neg hk, List.find?_append]
      have hkk : ¬(k = k') := fun h => hk h.symm
      have htail : ([(k, v)].find? (fun p => p.1 = k')) = none := by
        simp [List.find?_cons, hkk]
      simp [htail]

theorem lastValueOf_cons {α : Type} (p : String × α) (rest : List (String × α)) (k : String) :
    lastValueOf (p :: rest) k =
      match lastValueOf rest k with
      | some v => some v
      | none => if p.1 = k then some p.2 else none := by
  unfold lastValueOf
  rw [List.reverse_cons, List.find?_append]
  cases hfind : rest.reverse.find? (fun q => decide (q.1 = k)) with
  | none =>
      by_cases hp : p.1 = k
      · simp [List.find?_cons, hp]
      · simp [List.find?_cons, hp]
  | some q => simp

theorem lastValueOf_append {α : Type} (l₁ l₂ : List (String × α)) (k : String) :
    lastValueOf (l₁ ++ l₂) k =
      match lastValueOf l₂ k with
      | some v => some v
      | none => lastValueOf l₁ k := by
  unfold lastValueOf
  rw [List.reverse_append, List.find?_append]
  cases hfind : l₂.reverse.find? (fun q => decide (q.1 = k)) with
  | none => simp
  | some q => simp

theorem lastValueOf_mem {α : Type} (l : List (String × α)) (k : String) (v : α)
    (h : lastValueOf l k = some v) : (k, v) ∈ l := by
  unfold lastValueOf at h
  cases hfind : l.reverse.find? (fun q => q.1 = k) with
  | none => rw [hfind] at h; exact absurd h (by simp)
  | some q =>
      rw [hfind] at h
      have hq := List.find?_some hfind
      have hmem := List.mem_of_find?_eq_some hfind
      simp only [decide_eq_true_eq] at hq
      simp only [Option.map_some', Option.some.injEq] at h
      have hqe : q = (k, v) := Prod.ext hq h
      rw [← hqe]
      exact (List.mem_reverse).mp hmem

theorem lookup_foldl_insert {α : Type} (l : List (String × α)) (m : List (String × α))
    (k : String) :
    indexMapLookup (l.foldl (fun acc p => indexMapInsert acc p.1 p.2) m) k =
      match lastValueOf l k with
      | some v => some v
      | none => indexMapLookup m k := by
  induction l generalizing m with
  | nil => simp [lastValueOf]
  | cons p rest ih =>
      rw [List.foldl_cons, ih, lastValueOf_cons]
      cases hrest : lastValueOf rest k with
      | some v => simp
      | none =>
          simp only
          rw [indexMapLookup_insert]
          by_cases hp : p.1 = k
          · simp [hp]
          · have : ¬(k = p.1) := fun h => hp h.symm
            simp [hp, this]

theorem sizeOf_list_append {α : Type} [SizeOf α] (l₁ l₂ : List α) :
    sizeOf (l₁ ++ l₂) + 1 = sizeOf l₁ + sizeOf l₂ := by
  induction l₁ with
  | nil => simp only [List.nil_append, List.nil.sizeOf_spec]; omega
  | cons a t ih => simp only [List.cons_append, List.cons.sizeOf_spec]; omega

theorem sizeOf_list_reverse {α : Type} [SizeOf α] (l : List α) :
    sizeOf l.reverse = sizeOf l := by
  induction l with
  | nil => rfl
  | cons a t ih =>
      rw [List.reverse_cons]
      have := sizeOf_list_append t.reverse [a]
      simp only [List.cons.sizeOf_spec, List.nil.sizeOf_spec] at this ⊢
      omega

theorem add_dir_to_routes_eq (make_route : String → Route) :
    ∀ (n : Nat) (q : List PagesDirectoryStructure), sizeOf q ≤ n →
      ∀ m : List (String × Route),
      add_dir_to_routes make_route q m =
        (dir_route_seq make_route q).foldl (fun acc p => indexMapInsert acc p.1 p.2) m := by
  intro n
  induction n with
  | zero =>
      intro q hq m
      exfalso
      cases q <;> simp only [List.nil.sizeOf_spec, List.cons.sizeOf_spec] at hq <;> omega
  | succ n ih =>
      intro q hq m
      match q with
      | [] => simp [add_dir_to_routes, dir_route_seq]
      | d :: rest =>
          simp only [add_dir_to_routes, dir_route_seq]
          rw [List.foldl_append]
          have hitems : routes_of_items make_route d.items m =
              (d.items.map (fun it =>
                ("/" ++ it.next_router_path, make_route it.project_path))).foldl
                (fun acc p => indexMapInsert acc p.1 p.2) m := by
            unfold routes_of_items
            rw [List.foldl_map]
          have hsz : sizeOf (d.children.reverse ++ rest) ≤ n := by
            have h1 := sizeOf_list_append d.children.reverse rest
            rw [sizeOf_list_reverse] at h1
            cases d with
            | mk pp rp its ch =>
                simp only [List.cons.sizeOf_spec, PagesDirectoryStructure.mk.sizeOf_spec,
                  PagesDirectoryStructure.children] at hq h1 ⊢
                omega
          rw [ih _ hsz, hitems]

theorem dir_route_seq_mem (make_route : String → Route) :
    ∀ (n : Nat) (q : List PagesDirectoryStructure), sizeOf q ≤ n →
      ∀ pr ∈ dir_route_seq make_route q,
        ∃ it : PagesStructureItem,
          pr = ("/" ++ it.next_router_path, make_route it.project_path) := by
  intro n
  induction n with
  | zero =>
      intro q hq pr hpr
      exfalso
      cases q <;> simp only [List.nil.sizeOf_spec, List.cons.sizeOf_spec] at hq <;> omega
  | succ n ih =>
      intro q hq pr hpr
      match q with
      | [] => simp [dir_route_seq] at hpr
      | d :: rest =>
          simp only [dir_route_seq] at hpr
          rcases List.mem_append.mp hpr with hmem | hmem
          · obtain ⟨it, _, heq⟩ := List.mem_map.mp hmem
            exact ⟨it, heq.symm⟩
          · have hsz : sizeOf (d.children.reverse ++ rest) ≤ n := by
              have h1 := sizeOf_list_append d.children.reverse rest
              rw [sizeOf_list_reverse] at h1
              cases d with
              | mk pp rp its ch =>
                  simp only [List.cons.sizeOf_spec, PagesDirectoryStructure.mk.sizeOf_spec,
                    PagesDirectoryStructure.children] at hq h1 ⊢
                  omega
            exact ih _ hsz pr hmem

theorem get_pages_routes_eq (s : PagesStructure) :
    get_pages_routes s =
      (pages_route_seq s).foldl (fun acc p => indexMapInsert acc p.1 p.2) [] := by
  unfold get_pages_routes pages_route_seq
  cases hapi : s.api with
  | none =>
      simp only
      rw [add_dir_to_routes_eq _ (sizeOf [s.pages]) _ le_rfl, List.nil_append]
  | some api =>
      simp only
      rw [add_dir_to_routes_eq _ (sizeOf [s.pages]) _ le_rfl,
        add_dir_to_routes_eq _ (sizeOf [api]) _ le_rfl, List.foldl_append]

theorem lookup_get_pages_routes (s : PagesStructure) (p : String) :
    indexMapLookup (get_pages_routes s) p = lastValueOf (pages_route_seq s) p := by
  rw [get_pages_routes_eq, lookup_foldl_insert]
  cases h : lastValueOf (pages_route_seq s) p with
  | some v => simp
  | none => simp [indexMapLookup]

theorem pages_route_seq_mem (s : PagesStructure) (pr : String × Route)
    (h : pr ∈ pages_route_seq s) :
    ∃ it : PagesStructureItem, pr.1 = "/" ++ it.next_router_path ∧
      (pr.2 = Route.page_api (.api it.project_path) ∨
        pr.2 = Route.page (.page it.project_path) (.page_data it.project_path)) := by
  unfold pages_route_seq at h
  rcases List.mem_append.mp h with hmem | hmem
  · cases hapi : s.api with
    | none => rw [hapi] at hmem; simp at hmem
    | some api =>
        rw [hapi] at hmem
        obtain ⟨it, heq⟩ := dir_route_seq_mem _ (sizeOf [api]) _ le_rfl pr hmem
        exact ⟨it, by rw [heq], Or.inl (by rw [heq])⟩
  · obtain ⟨it, heq⟩ := dir_route_seq_mem _ (sizeOf [s.pages]) _ le_rfl pr hmem
    exact ⟨it, by rw [heq], Or.inr (by rw [heq])⟩

/-- Claim C1 (amended): neither route collection surfaces pathname
collisions as a populated Conflict. In `get_pages_routes`, the map insert
overwrites: the value at a pathname is the route of the last-processed
item with that pathname (api subtree first, then pages subtree), so a
collision silently keeps the later route and no Conflict is ever produced
there. In `Project::routes`, every value is the stub conversion
`Route::Conflict { routes: vec![] }` of an app entry point — a Conflict
with an empty list, not one carrying the competing routes. -/
theorem c1_conflict_handling :
    (∀ (project_entries : List (String × DirEntry)) (options : RoutesOptions)
        (p : String) (r : Route),
      indexMapLookup (ProjectVc.routes project_entries options) p = some r →
        r = .conflict []) ∧
    (∀ (s : PagesStructure) (p : String),
      indexMapLookup (get_pages_routes s) p = lastValueOf (pages_route_seq s) p) ∧
    (∀ (s : PagesStructure) (p : String) (r : Route),
      indexMapLookup (get_pages_routes s) p = some r → r.isConflictVariant = false) := by
  refine ⟨?_, lookup_get_pages_routes, ?_⟩
  · intro tree opts p r h
    unfold ProjectVc.routes at h
    cases hfind : find_app_dir tree with
    | none => rw [hfind] at h; simp [indexMapLookup] at h
    | some app_dir =>
        simp only [hfind] at h
        have hmap : (get_entrypoints app_dir opts.page_extensions).foldl
            (fun result pr => indexMapInsert result pr.1 (app_entry_point_to_route pr.2))
            ([] : List (String × Route)) =
            ((get_entrypoints app_dir opts.page_extensions).map
              (fun pr => (pr.1, app_entry_point_to_route pr.2))).foldl
              (fun acc q => indexMapInsert acc q.1 q.2) [] := by
          rw [List.foldl_map]
        rw [hmap, lookup_foldl_insert] at h
        cases hlast : lastValueOf ((get_entrypoints app_dir opts.page_extensions).map
            (fun pr => (pr.1, app_entry_point_to_route pr.2))) p with
        | none => rw [hlast] at h; simp [indexMapLookup] at h
        | some v =>
            rw [hlast] at h
            simp only [Option.some.injEq] at h
            have hmem := lastValueOf_mem _ _ _ hlast
            obtain ⟨pr, _, heq⟩ := List.mem_map.mp hmem
            have hv : v = app_entry_point_to_route pr.2 := by
              have := congrArg Prod.snd heq
              simpa using this.symm
            rw [← h, hv]
            rfl
  · intro s p r h
    rw [lookup_get_pages_routes] at h
    obtain ⟨it, _, h2⟩ := pages_route_seq_mem s (p, r) (lastValueOf_mem _ _ _ h)
    simp only at h2
    rcases h2 with h2 | h2 <;> rw [h2] <;> rfl

theorem c1_counterexample :
    indexMapLookup (pages_routes_of_tree
        [("pages", DirEntry.dir [("a.js", DirEntry.file), ("a.ts", DirEntry.file)])]
        ["js", "ts"]) "/a" =
      some (.page (.page "pages/a.ts") (.page_data "pages/a.ts")) ∧
    (Route.page (.page "pages/a.ts") (.page_data "pages/a.ts")).isConflictVariant = false := by
  constructor
  · simp +decide [pages_routes_of_tree, find_pages_structure, findEntry, dirEntries,
      get_pages_structure_for_root_directory_eq, get_pages_structure_for_directory_eq,
      rootItemOf, rootChildOf, rootAppOf, rootDocumentOf, rootErrorOf, rootApiOf,
      dirItemOf, dirChildOf, page_basename, rsplitOnceDot, rsplitCharList, pathJoin,
      sortByKey, insertSorted, List.filterMap_cons, get_pages_routes, add_dir_to_routes,
      routes_of_items, indexMapInsert, indexMapLookup, List.find?,
      PagesDirectoryStructure.items, PagesDirectoryStructure.children, entry_specificity,
      strStartsWith, charListIsPfx]
  · rfl

theorem c1_witness :
    Route.conflict [] = Route.conflict [] :=
  c1_conflict_handling.1 [("app", DirEntry.dir [("page.ts", DirEntry.file)])] ⟨["ts"]⟩ "/"
    (.conflict [])
    (by
      simp +decide [ProjectVc.routes, find_app_dir, findEntry, dirEntries, get_entrypoints,
        get_entrypoints_walk, page_basename, rsplitOnceDot, rsplitCharList, pathJoin,
        app_entry_point_to_route, indexMapInsert, indexMapLookup, List.find?])

theorem strStartsWith_slash_append (s : String) : strStartsWith ("/" ++ s) "/" = true := by
  have h1 : ("/" : String).data = ['/'] := rfl
  unfold strStartsWith
  rw [String.data_append, h1]
  simp [charListIsPfx]

/-- Claim C7 (amended): every entry of the collection built by
`get_pages_routes` has a pathname carrying a leading slash and is either a
`PageApi` route holding exactly one api endpoint or a `Page` route holding
an html endpoint and a data endpoint for the same source file; with
`api/hello.ts` present the collection maps `"/api/hello"` (the `api`
segment included, not `"/hello"`) to the `PageApi` route. -/
theorem c7_route_shapes :
    (∀ (s : PagesStructure) (p : String) (r : Route),
      indexMapLookup (get_pages_routes s) p = some r →
        strStartsWith p "/" = true ∧
        ((∃ path, r = Route.page_api (.api path)) ∨
          (∃ path, r = Route.page (.page path) (.page_data path)))) ∧
    indexMapLookup (pages_routes_of_tree
        [("pages", DirEntry.dir [("api", DirEntry.dir [("hello.ts", DirEntry.file)])])]
        ["ts"]) "/api/hello" =
      some (.page_api (.api "pages/api/hello.ts")) := by
  constructor
  · intro s p r h
    rw [lookup_get_pages_routes] at h
    obtain ⟨it, h1, h2⟩ := pages_route_seq_mem s (p, r) (lastValueOf_mem _ _ _ h)
    simp only at h1 h2
    constructor
    · rw [h1]
      exact strStartsWith_slash_append _
    · rcases h2 with h2 | h2
      · exact Or.inl ⟨it.project_path, h2⟩
      · exact Or.inr ⟨it.project_path, h2⟩
  · simp +decide [pages_routes_of_tree, find_pages_structure, findEntry, dirEntries,
      get_pages_structure_for_root_directory_eq, get_pages_structure_for_directory_eq,
      rootItemOf, rootChildOf, rootAppOf, rootDocumentOf, rootErrorOf, rootApiOf,
      dirItemOf, dirChildOf, page_basename, rsplitOnceDot, rsplitCharList, pathJoin,
      sortByKey, insertSorted, List.filterMap_cons, get_pages_routes, add_dir_to_routes,
      routes_of_items, indexMapInsert, indexMapLookup, List.find?,
      PagesDirectoryStructure.items, PagesDirectoryStructure.children, entry_specificity,
      strStartsWith, charListIsPfx]

theorem c7_witness :
    strStartsWith "/x" "/" = true ∧
    ((∃ path, Route.page (.page "pages/x.ts") (.page_data "pages/x.ts") =
        Route.page_api (.api path)) ∨
      (∃ path, Route.page (.page "pages/x.ts") (.page_data "pages/x.ts") =
        Route.page (.page path) (.page_data path))) :=
  c7_route_shapes.1
    ⟨⟨"f", "_app", .exact⟩, ⟨"f", "_document", .exact⟩, ⟨"f", "_error", .exact⟩, none,
      .mk "pages" "" [⟨"pages/x.ts", "x", .exact⟩] []⟩ "/x"
    (Route.page (.page "pages/x.ts") (.page_data "pages/x.ts"))
    (by
      simp +decide [get_pages_routes, add_dir_to_routes, routes_of_items,
        PagesDirectoryStructure.items, PagesDirectoryStructure.children, indexMapInsert,
        indexMapLookup, List.find?])

theorem c7_counterexample :
    indexMapLookup (pages_routes_of_tree
        [("pages", DirEntry.dir [("api", DirEntry.dir [("hello.ts", DirEntry.file)])])]
        ["ts"]) "/hello" = none := by
  simp +decide [pages_routes_of_tree, find_pages_structure, findEntry, dirEntries,
    get_pages_structure_for_root_directory_eq, get_pages_structure_for_directory_eq,
    rootItemOf, rootChildOf, rootAppOf, rootDocumentOf, rootErrorOf, rootApiOf,
    dirItemOf, dirChildOf, page_basename, rsplitOnceDot, rsplitCharList, pathJoin,
    sortByKey, insertSorted, List.filterMap_cons, get_pages_routes, add_dir_to_routes,
    routes_of_items, indexMapInsert, indexMapLookup, List.find?,
    PagesDirectoryStructure.items, PagesDirectoryStructure.children, entry_specificity,
    strStartsWith, charListIsPfx]

/-- Claim C2 (code bug): `Project::routes`' own doc comment says it scans
the app/pages directories, but the body only consults the app directory
(via `find_app_dir`/`get_entrypoints`): for a project holding only
`pages/about.tsx` it returns the empty collection, while the separate —
uncalled — `get_pages_routes` pipeline applied to the same tree's pages
structure yields the `"/about"` Page route. -/
theorem c2_routes_ignores_pages :
    ProjectVc.routes [("pages", DirEntry.dir [("about.tsx", DirEntry.file)])] ⟨["tsx"]⟩ = [] ∧
    indexMapLookup (pages_routes_of_tree
        [("pages", DirEntry.dir [("about.tsx", DirEntry.file)])] ["tsx"]) "/about" =
      some (.page (.page "pages/about.tsx") (.page_data "pages/about.tsx")) := by
  constructor
  · simp +decide [ProjectVc.routes, find_app_dir, findEntry, dirEntries, List.find?]
  · simp +decide [pages_routes_of_tree, find_pages_structure, findEntry, dirEntries,
      get_pages_structure_for_root_directory_eq, get_pages_structure_for_directory_eq,
      rootItemOf, rootChildOf, rootAppOf, rootDocumentOf, rootErrorOf, rootApiOf,
      dirItemOf, dirChildOf, page_basename, rsplitOnceDot, rsplitCharList, pathJoin,
      sortByKey, insertSorted, List.filterMap_cons, get_pages_routes, add_dir_to_routes,
      routes_of_items, indexMapInsert, indexMapLookup, List.find?,
      PagesDirectoryStructure.items, PagesDirectoryStructure.children, entry_specificity,
      strStartsWith, charListIsPfx]

/-- Claim C3 (amended): when `project_path` does not start with
`root_path`, `Project::new` panics (`unwrap` of the failed `strip_prefix`)
— it does not return an error value on the error channel; when
`project_path` starts with `root_path` it succeeds and returns a Project
holding the resolved root (the root of the project filesystem rooted at
`root_path`) and the resolved project path inside it; no error value is
ever produced. -/
theorem c3_new_nesting (options : ProjectOptions) :
    (strStartsWith options.project_path options.root_path = false →
      ProjectVc.new options = .panicked) ∧
    (strStartsWith options.project_path options.root_path = true →
      ∃ proj : Project, ProjectVc.new options = .ok proj ∧
        proj.root_path = ⟨options.root_path, ""⟩ ∧
        proj.project_path.fs_root = options.root_path) ∧
    (∀ e, ProjectVc.new options ≠ .err e) := by
  refine ⟨?_, ?_, ?_⟩
  · intro h
    unfold ProjectVc.new stringStripPfx
    rw [h]
    simp
  · intro h
    unfold ProjectVc.new stringStripPfx
    rw [h]
    simp only [if_true]
    exact ⟨_, rfl, rfl, rfl⟩
  · intro e
    unfold ProjectVc.new stringStripPfx
    by_cases h : strStartsWith options.project_path options.root_path
    · simp [h]
    · simp [h]

theorem c3_witness :
    ∃ proj : Project, ProjectVc.new ⟨"/root", "/root/app", false⟩ = .ok proj ∧
      proj.root_path = ⟨"/root", ""⟩ ∧ proj.project_path.fs_root = "/root" :=
  (c3_new_nesting ⟨"/root", "/root/app", false⟩).2.1 (by decide)

theorem c3_counterexample :
    ProjectVc.new ⟨"/root", "/elsewhere", false⟩ = .panicked ∧
    ∀ e, ProjectVc.new ⟨"/root", "/elsewhere", false⟩ ≠ .err e := by
  have h : ProjectVc.new ⟨"/root", "/elsewhere", false⟩ = .panicked := by decide
  exact ⟨h, fun e he => by rw [h] at he; exact RustOutcome.noConfusion he⟩

/-- Claim C4 (code bug): `impl Drop for RootTask` has an empty body (only
a `TODO stop the root task` comment), so dropping the subscription handle
leaves the engine state unchanged: no cancellation of the background task
is requested, and an active root task still re-fires its external callback
on the next change of the underlying value. -/
theorem c4_drop_requests_nothing :
    rootTask_drop ⟨42⟩ ⟨[42], []⟩ = ⟨[42], []⟩ ∧
    cancellationRequested (rootTask_drop ⟨42⟩ ⟨[42], []⟩) ⟨42⟩ = false ∧
    callback_fires_on_change (rootTask_drop ⟨42⟩ ⟨[42], []⟩) ⟨42⟩ = true := by
  refine ⟨rfl, by decide, by decide⟩

/-- Claim C9: in every iteration of the subscription bridge loop, a
handler error is mapped through the pretty-printer into the external error
channel and delivered by a non-blocking callback invocation — the
invocation always happens, and the loop continues (returns Ok) whenever
the callback dispatch itself reports Ok. -/
theorem c9_error_delivery (E T : Type) (pretty_print : E → String) (e : E)
    (call_status : NapiStatus) :
    (@subscribe_iteration E T pretty_print (.error e) call_status).invocation.payload =
      .error (pretty_print e) ∧
    (@subscribe_iteration E T pretty_print (.error e) call_status).invocation.mode =
      .non_blocking ∧
    (call_status = .ok →
      (@subscribe_iteration E T pretty_print (.error e) call_status).outcome = .ok ()) := by
  refine ⟨rfl, rfl, ?_⟩
  intro h
  subst h
  rfl

theorem c9_witness :
    (@subscribe_iteration String Unit id (.error "boom") .ok).outcome = .ok () :=
  (c9_error_delivery String Unit id "boom" .ok).2.2 rfl

/-- Claim C10: `find_pages_structure` uses the `pages` directory under the
project root when it exists as a directory; otherwise `src/pages` when
that exists as a directory; otherwise it returns no pages structure. -/
theorem c10_find_pages_structure (fs : List (String × DirEntry)) (next_router_root : String)
    (page_extensions : List String) :
    (∀ sub, dirEntries (findEntry fs "pages") = some sub →
      ∃ s, find_pages_structure fs next_router_root page_extensions = some s ∧
        s.pages.project_path = "pages" ∧ s.pages.next_router_path = next_router_root) ∧
    (dirEntries (findEntry fs "pages") = none →
      ∀ sub, lookupDirPath fs ["src", "pages"] = some sub →
        ∃ s, find_pages_structure fs next_router_root page_extensions = some s ∧
          s.pages.project_path = "src/pages" ∧ s.pages.next_router_path = next_router_root) ∧
    (dirEntries (findEntry fs "pages") = none →
      lookupDirPath fs ["src", "pages"] = none →
      find_pages_structure fs next_router_root page_extensions = none) := by
  refine ⟨?_, ?_, ?_⟩
  · intro sub hsub
    unfold find_pages_structure
    rw [hsub]
    refine ⟨_, rfl, ?_, ?_⟩ <;>
      simp [get_pages_structure_for_root_directory_eq, PagesDirectoryStructure.project_path,
        PagesDirectoryStructure.next_router_path]
  · intro hnone sub hpath
    unfold find_pages_structure
    rw [hnone]
    unfold lookupDirPath at hpath
    cases hsrc : dirEntries (findEntry fs "src") with
    | none => rw [hsrc] at hpath; exact absurd hpath (by simp)
    | some src =>
        rw [hsrc] at hpath
        unfold lookupDirPath at hpath
        cases hpg : dirEntries (findEntry src "pages") with
        | none => rw [hpg] at hpath; exact absurd hpath (by simp)
        | some s2 =>
            rw [hpg] at hpath
            unfold lookupDirPath at hpath
            simp only [Option.some.injEq] at hpath
            subst hpath
            simp only [hsrc, Option.some_bind, Option.bind_some, hpg]
            refine ⟨_, rfl, ?_, ?_⟩ <;>
              simp [get_pages_structure_for_root_directory_eq,
                PagesDirectoryStructure.project_path, PagesDirectoryStructure.next_router_path]
  · intro hnone hpath
    unfold find_pages_structure
    rw [hnone]
    unfold lookupDirPath at hpath
    cases hsrc : dirEntries (findEntry fs "src") with
    | none => simp [hsrc]
    | some src =>
        rw [hsrc] at hpath
        unfold lookupDirPath at hpath
        cases hpg : dirEntries (findEntry src "pages") with
        | none => simp [hsrc, hpg]
        | some s2 =>
            rw [hpg] at hpath
            unfold lookupDirPath at hpath
            exact absurd hpath (by simp)

theorem c10_witness :
    ∃ s, find_pages_structure [("src", DirEntry.dir [("pages", DirEntry.dir [])])] ""
        ["ts"] = some s ∧
      s.pages.project_path = "src/pages" ∧ s.pages.next_router_path = "" :=
  (c10_find_pages_structure [("src", DirEntry.dir [("pages", DirEntry.dir [])])] "" ["ts"]).2.1
    rfl [] rfl

/-- Claim C8 (amended): invoked with no query data, the image content
source answers `NeedMoreData` naming the url and exactly the query-field
subset `{url, w, q}` (iterated in the BTreeSet order q, url, w); invoked
again with query data supplied it never answers `NeedMoreData` a second
time: it resolves (to a rewrite or a proxy answer) whenever the fields are
present with well-formed values (`url` a string, `w` a u32 numeral, `q` a
u8 numeral), and answers `NotFound` — not a resolved result — when a
supplied value is malformed. -/
theorem c8_image_negotiation (path : String) (data : ContentSourceData) :
    (data.query = none →
      NextImageContentSource.get path data =
        .need_data ⟨path, ⟨true, some (.subset ["q", "url", "w"]), none, false⟩⟩) ∧
    (∀ query, data.query = some query →
      (NextImageContentSource.get path data).isNeedData = false) ∧
    (∀ query url ws qs, data.query = some query →
      indexMapLookup query "url" = some (.str url) →
      indexMapLookup query "w" = some (.str ws) →
      (∃ w, parseRustNat ws 4294967295 = some w) →
      indexMapLookup query "q" = some (.str qs) →
      (∃ q, parseRustNat qs 255 = some q) →
      (NextImageContentSource.get path data).isResolved = true) := by
  obtain ⟨qf⟩ := data
  refine ⟨?_, ?_, ?_⟩
  · intro h
    simp only at h
    subst h
    have hset : btreeSetOfList ["url", "w", "q"] = ["q", "url", "w"] := by decide
    unfold NextImageContentSource.get
    rw [hset]
  · intro query h
    simp only at h
    subst h
    unfold NextImageContentSource.get
    cases hurl : indexMapLookup query "url" with
    | none => simp [hurl, ContentSourceResult.isNeedData]
    | some v =>
        cases v with
        | other => simp [hurl, ContentSourceResult.isNeedData]
        | str url =>
            cases hq : indexMapLookup query "q" with
            | none =>
                cases hw : indexMapLookup query "w" with
                | none => simp [hurl, hq, hw, ContentSourceResult.isNeedData]
                | some w =>
                    cases w with
                    | other => simp [hurl, hq, hw, ContentSourceResult.isNeedData]
                    | str ws =>
                        cases hpw : parseRustNat ws 4294967295 with
                        | none => simp [hurl, hq, hw, hpw, ContentSourceResult.isNeedData]
                        | some wv =>
                            cases hstrip : stringStripPfx url "/" with
                            | none => simp [hurl, hq, hw, hpw, hstrip,
                                ContentSourceResult.isNeedData]
                            | some p => simp [hurl, hq, hw, hpw, hstrip,
                                ContentSourceResult.isNeedData]
            | some qv =>
                cases qv with
                | other => simp [hurl, hq, ContentSourceResult.isNeedData]
                | str qs =>
                    cases hpq : parseRustNat qs 255 with
                    | none => simp [hurl, hq, hpq, ContentSourceResult.isNeedData]
                    | some q =>
                        cases hw : indexMapLookup query "w" with
                        | none => simp [hurl, hq, hpq, hw, ContentSourceResult.isNeedData]
                        | some w =>
                            cases w with
                            | other => simp [hurl, hq, hpq, hw,
                                ContentSourceResult.isNeedData]
                            | str ws =>
                                cases hpw : parseRustNat ws 4294967295 with
                                | none => simp [hurl, hq, hpq, hw, hpw,
                                    ContentSourceResult.isNeedData]
                                | some wv =>
                                    cases hstrip : stringStripPfx url "/" with
                                    | none => simp [hurl, hq, hpq, hw, hpw, hstrip,
                                        ContentSourceResult.isNeedData]
                                    | some p => simp [hurl, hq, hpq, hw, hpw, hstrip,
                                        ContentSourceResult.isNeedData]
  · intro query url ws qs h hurl hw hpw hq hpq
    simp only at h
    subst h
    obtain ⟨wv, hpw⟩ := hpw
    obtain ⟨qv, hpq⟩ := hpq
    unfold NextImageContentSource.get
    cases hstrip : stringStripPfx url "/" with
    | none => simp [hurl, hq, hpq, hw, hpw, hstrip, ContentSourceResult.isResolved]
    | some p => simp [hurl, hq, hpq, hw, hpw, hstrip, ContentSourceResult.isResolved]

theorem c8_witness :
    NextImageContentSource.get "p" ⟨none⟩ =
      .need_data ⟨"p", ⟨true, some (.subset ["q", "url", "w"]), none, false⟩⟩ ∧
    (NextImageContentSource.get "p"
        ⟨some [("url", .str "/img.png"), ("w", .str "640"), ("q", .str "50")]⟩).isNeedData =
      false ∧
    (NextImageContentSource.get "p"
        ⟨some [("url", .str "/img.png"), ("w", .str "640"), ("q", .str "50")]⟩).isResolved =
      true :=
  ⟨(c8_image_negotiation "p" ⟨none⟩).1 rfl,
    (c8_image_negotiation "p"
      ⟨some [("url", .str "/img.png"), ("w", .str "640"), ("q", .str "50")]⟩).2.1 _ rfl,
    (c8_image_negotiation "p"
      ⟨some [("url", .str "/img.png"), ("w", .str "640"), ("q", .str "50")]⟩).2.2 _
      "/img.png" "640" "50" rfl (by decide) (by decide) ⟨640, by decide⟩ (by decide)
      ⟨50, by decide⟩⟩

theorem c8_counterexample :
    (NextImageContentSource.get "p"
        ⟨some [("url", .str "/img.png"), ("w", .str "not-a-number"), ("q", .str "50")]⟩) =
      .not_found ∧
    (NextImageContentSource.get "p"
        ⟨some [("url", .str "/img.png"), ("w", .str "not-a-number"), ("q", .str "50")]⟩).isResolved
      = false := by
  constructor <;> decide
